import Mathlib

/-!
Shallow embedding of the srtla receiver (IRLToolkit/srtla, src/main.cpp):
group registry, SRTLA registration handshake, data relay, SRTLA ACK ring,
and the periodic connection/group cleanup.

Addresses are abstracted to naturals (the code compares full sockaddr
structures bytewise with a constant-time comparison, which is equality).
Packets are lists of bytes (naturals < 256 on the wire).  I/O outcomes
(sendto/socket/connect/epoll results) are supplied as boolean oracles,
mirroring the return-value checks the code performs.
-/

namespace Srtla

/-- Values from main.h, modelled from the spec reference values:
MAX_GROUPS = 200. -/
def MAX_GROUPS : Nat := 200

/-- Modelled from the spec: MAX_CONNS_PER_GROUP = 16 (main.h). -/
def MAX_CONNS_PER_GROUP : Nat := 16

/-- Modelled from the spec: RECV_ACK_INT = 10 (main.h). -/
def RECV_ACK_INT : Nat := 10

/-- Modelled from the spec: CONN_TIMEOUT = 10 seconds (main.h). -/
def CONN_TIMEOUT : Int := 10

/-- Modelled from the spec: GROUP_TIMEOUT = 10 seconds (main.h). -/
def GROUP_TIMEOUT : Int := 10

/-- Modelled from the spec: SRT_MIN_LEN = 16 bytes (main.h). -/
def SRT_MIN_LEN : Nat := 16

/-- Modelled from the spec: SRTLA_ID_LEN = 32 bytes (256 bits, main.h). -/
def SRTLA_ID_LEN : Nat := 32

/-- Abstract peer socket address (sockaddr compared bytewise = equality). -/
abbrev Addr := Nat

/-- Opaque 256-bit group identifier, as a byte list. -/
abbrev GroupId := List Nat

/-- srtla_conn: one member link of a group (main.h layout; recv_log is an
array of RECV_ACK_INT sequence-number slots, recv_idx the write position). -/
structure Conn where
  addr : Addr
  recv_log : List Nat
  recv_idx : Nat
  last_rcvd : Int
deriving Repr, DecidableEq

/-- srtla_conn_group: id, member connections, the lazily created upstream
SRT socket (modelled by a presence flag: srt_sock < 0 in C is false here),
last active peer address, creation timestamp. -/
structure Group where
  id : GroupId
  conns : List Conn
  srt_sock : Bool
  last_addr : Addr
  created_at : Int
deriving Repr, DecidableEq

/-- Default connection (used only as a List.getD fallback). -/
def dC : Conn := ⟨0, [], 0, 0⟩

/-- Default group (used only as a List.getD fallback). -/
def dG : Group := ⟨[], [], false, 0, 0⟩

/-- Replies the server passes to sendto while handling registration. -/
inductive Reply where
  | reg2 (id : GroupId)
  | reg3
  | regErr
  | regNgp
deriving Repr, DecidableEq

/-- Wire bytes of a registration reply (type field is big-endian). -/
def replyBytes : Reply → List Nat
  | .reg2 id => 0x90 :: 0x01 :: id
  | .reg3 => [0x90, 0x02]
  | .regErr => [0x90, 0x03]
  | .regNgp => [0x90, 0x04]

/-- Index of the first connection in the list whose addr equals a
(the inner loop of group_find_by_addr). -/
def connFind : List Conn → Addr → Option Nat
  | [], _ => none
  | c :: rest, a =>
    if c.addr = a then some 0 else (connFind rest a).map (· + 1)

/-- group_find_by_id: index of the first group whose id equals the given
id (const_time_cmp is an equality test). -/
def findById : List Group → GroupId → Option Nat
  | [], _ => none
  | g :: rest, id =>
    if g.id = id then some 0 else (findById rest id).map (· + 1)

/-- group_find_by_addr: scans the groups in order; within each group it
first checks the member connections, then that group's last_addr, before
moving on to the next group.  Returns the group index and, for a member
match, the connection index. -/
def findByAddr : List Group → Addr → Option (Nat × Option Nat)
  | [], _ => none
  | g :: rest, a =>
    match connFind g.conns a with
    | some j => some (0, some j)
    | none =>
      if g.last_addr = a then some (0, none)
      else (findByAddr rest a).map (fun p => (p.1 + 1, p.2))

/-- Replace the group at index i by f applied to it. -/
def updateGroup (gs : List Group) (i : Nat) (f : Group → Group) : List Group :=
  gs.set i (f (gs.getD i dG))

/-- Replace connection j of a group by f applied to it. -/
def updateConnIn (g : Group) (j : Nat) (f : Conn → Conn) : Group :=
  { g with conns := g.conns.set j (f (g.conns.getD j dC)) }

/-- A freshly value-initialized srtla_conn as conn_reg builds it:
given address, zeroed ring, recv_idx = 0, last_rcvd = ts. -/
def newConn (a : Addr) (ts : Int) : Conn :=
  ⟨a, List.replicate RECV_ACK_INT 0, 0, ts⟩

/-- register_group: handles a REG1 from address a carrying the client half
of the id; serverHalf is the 16 random bytes read from /dev/urandom;
sendOk is the outcome of the checked sendto of the REG2 reply.  Returns
the new registry and the reply passed to sendto. -/
def register_group (sendOk : Bool) (gs : List Group) (a : Addr)
    (clientHalf serverHalf : GroupId) (ts : Int) : List Group × Reply :=
  if MAX_GROUPS ≤ gs.length then (gs, .regErr)
  else
    match findByAddr gs a with
    | some _ => (gs, .regErr)
    | none =>
      let g : Group :=
        { id := clientHalf ++ serverHalf, conns := [], srt_sock := false,
          last_addr := a, created_at := ts }
      if sendOk then (gs ++ [g], .reg2 g.id) else (gs, .reg2 g.id)

/-- conn_reg: handles a REG2 from address a carrying a full group id;
sendOk is the outcome of the checked sendto of the REG3 reply. -/
def conn_reg (sendOk : Bool) (gs : List Group) (a : Addr) (id : GroupId)
    (ts : Int) : List Group × Reply :=
  match findById gs id with
  | none => (gs, .regNgp)
  | some gi =>
    let mismatch : Bool :=
      match findByAddr gs a with
      | some (ti, _) => decide (ti ≠ gi)
      | none => false
    if mismatch then (gs, .regErr)
    else
      let connOpt : Option Nat :=
        match findByAddr gs a with
        | some (_, oc) => oc
        | none => none
      let g := gs.getD gi dG
      match connOpt with
      | some _ =>
        if sendOk then (gs.set gi { g with last_addr := a }, .reg3)
        else (gs, .reg3)
      | none =>
        if MAX_CONNS_PER_GROUP ≤ g.conns.length then (gs, .regErr)
        else if sendOk then
          (gs.set gi { g with conns := g.conns ++ [newConn a ts], last_addr := a },
           .reg3)
        else (gs, .reg3)

/-- Big-endian 32-bit encoding of a sequence number, as htobe32 lays it
out in memory. -/
def be32 (n : Nat) : List Nat :=
  [n / 2 ^ 24 % 256, n / 2 ^ 16 % 256, n / 2 ^ 8 % 256, n % 256]

/-- The bytes of the recv_log as memcpy reads them: each slot already
holds htobe32 of the sequence number. -/
def encodeLog : List Nat → List Nat
  | [] => []
  | sn :: rest => be32 sn ++ encodeLog rest

/-- Wire bytes of a srtla_ack_pkt: 4-byte type htobe32(SRTLA_TYPE_ACK << 16)
followed by the RECV_ACK_INT logged sequence numbers. -/
def ackBytes (log : List Nat) : List Nat :=
  [0x91, 0x00, 0x00, 0x00] ++ encodeLog log

/-- register_packet: stores sn at recv_idx, increments recv_idx; when it
reaches RECV_ACK_INT, emits the ACK packet and resets recv_idx to 0.
Returns the updated connection and the emitted packet, if any. -/
def register_packet (c : Conn) (sn : Nat) : Conn × Option (List Nat) :=
  let c1 : Conn :=
    { c with recv_log := c.recv_log.set c.recv_idx sn, recv_idx := c.recv_idx + 1 }
  if c1.recv_idx = RECV_ACK_INT then
    ({ c1 with recv_idx := 0 }, some (ackBytes c1.recv_log))
  else (c1, none)

/-- Modelled from the spec: is_srtla_reg1 (main.h is missing) — length is
2 + SRTLA_ID_LEN/2 and the big-endian type field is SRTLA_TYPE_REG1 = 0x9000. -/
def is_srtla_reg1 (buf : List Nat) : Bool :=
  buf.length = 2 + SRTLA_ID_LEN / 2 ∧ buf.getD 0 0 = 0x90 ∧ buf.getD 1 0 = 0x00

/-- Modelled from the spec: is_srtla_reg2 (main.h is missing) — length is
2 + SRTLA_ID_LEN and the type field is SRTLA_TYPE_REG2 = 0x9001. -/
def is_srtla_reg2 (buf : List Nat) : Bool :=
  buf.length = 2 + SRTLA_ID_LEN ∧ buf.getD 0 0 = 0x90 ∧ buf.getD 1 0 = 0x01

/-- Modelled from the spec: is_srtla_keepalive (main.h is missing) — the
type field is SRTLA_TYPE_KEEPALIVE = 0x9005. -/
def is_srtla_keepalive (buf : List Nat) : Bool :=
  2 ≤ buf.length ∧ buf.getD 0 0 = 0x90 ∧ buf.getD 1 0 = 0x05

/-- Modelled from the spec: is_srt_ack (main.h is missing) — high bit of
the first 32-bit word set (control packet) and control type = SRT ACK (2). -/
def is_srt_ack (buf : List Nat) : Bool :=
  4 ≤ buf.length ∧ 0x80 ≤ buf.getD 0 0 ∧
    (buf.getD 0 0 - 0x80) * 256 + buf.getD 1 0 = 2

/-- Modelled from the spec: get_srt_sn (main.h is missing) — for a data
packet (high bit clear) the first big-endian 32-bit word is the sequence
number; -1 otherwise. -/
def get_srt_sn (buf : List Nat) : Int :=
  if 4 ≤ buf.length ∧ buf.getD 0 0 < 0x80 then
    Int.ofNat (buf.getD 0 0 * 2 ^ 24 + buf.getD 1 0 * 2 ^ 16 +
      buf.getD 2 0 * 2 ^ 8 + buf.getD 3 0)
  else -1

/-- Outcomes of the system calls handle_srtla_data checks. -/
structure NetOracle where
  regSendOk : Bool
  socketOk : Bool
  connectOk : Bool
  epollOk : Bool
  upSendOk : Bool
deriving Repr, DecidableEq

/-- Result of one handle_srtla_data / handle_srt_data invocation: the new
registry, the datagrams sent on the srtla socket (destination, bytes), and
the datagram forwarded on the group's upstream SRT socket, if any. -/
structure Effects where
  groups : List Group
  sends : List (Addr × List Nat)
  upstream : Option (List Nat)
deriving Repr, DecidableEq

/-- The c->last_rcvd = ts update on the matched member connection. -/
def touchConn (gs : List Group) (gi ci : Nat) (ts : Int) : List Group :=
  updateGroup gs gi
    (fun g => updateConnIn g ci (fun c => { c with last_rcvd := ts }))

/-- The g->last_addr = srtla_addr update recording the most recent peer. -/
def setLastAddr (gs : List Group) (gi : Nat) (src : Addr) : List Group :=
  updateGroup gs gi (fun g => { g with last_addr := src })

/-- register_packet applied to connection ci of group gi in the registry:
new registry plus the emitted ACK datagrams (sent to the conn address). -/
def recordPacket (gs : List Group) (gi ci : Nat) (sn : Nat) :
    List Group × List (Addr × List Nat) :=
  let c := (gs.getD gi dG).conns.getD ci dC
  let r := register_packet c sn
  (updateGroup gs gi (fun g => { g with conns := g.conns.set ci r.1 }),
   match r.2 with
   | some pkt => [(c.addr, pkt)]
   | none => [])

/-- The tail of handle_srtla_data: lazily open the upstream SRT socket
(socket / connect / epoll_add, removing the group on failure), then
forward the packet upstream, removing the group on a short send. -/
def forwardUpstream (o : NetOracle) (gs : List Group) (gi : Nat)
    (acks : List (Addr × List Nat)) (buf : List Nat) : Effects :=
  let g := gs.getD gi dG
  if g.srt_sock = false then
    if o.socketOk = false then ⟨gs.eraseIdx gi, acks, none⟩
    else
      let gs4 := updateGroup gs gi (fun g => { g with srt_sock := true })
      if o.connectOk = false then ⟨gs4.eraseIdx gi, acks, none⟩
      else if o.epollOk = false then ⟨gs4.eraseIdx gi, acks, none⟩
      else if o.upSendOk = false then ⟨gs4.eraseIdx gi, acks, none⟩
      else ⟨gs4, acks, some buf⟩
  else if o.upSendOk = false then ⟨gs.eraseIdx gi, acks, none⟩
  else ⟨gs, acks, some buf⟩

/-- The member-connection path of handle_srtla_data (after the
registration dispatch and the membership check succeeded). -/
def dataPath (o : NetOracle) (gs : List Group) (gi ci : Nat) (src : Addr)
    (buf : List Nat) (ts : Int) : Effects :=
  let gs1 := touchConn gs gi ci ts
  if is_srtla_keepalive buf then ⟨gs1, [(src, buf)], none⟩
  else if buf.length < SRT_MIN_LEN then ⟨gs1, [], none⟩
  else
    let gs2 := setLastAddr gs1 gi src
    let sn := get_srt_sn buf
    let rp : List Group × List (Addr × List Nat) :=
      if 0 ≤ sn then recordPacket gs2 gi ci sn.toNat else (gs2, [])
    forwardUpstream o rp.1 gi rp.2 buf

/-- handle_srtla_data: one datagram buf from src on the listening socket
at time ts.  serverHalf feeds register_group's randomness. -/
def handle_srtla_data (o : NetOracle) (serverHalf : GroupId) (gs : List Group)
    (src : Addr) (buf : List Nat) (ts : Int) : Effects :=
  if is_srtla_reg1 buf then
    let r := register_group o.regSendOk gs src (buf.drop 2) serverHalf ts
    ⟨r.1, [(src, replyBytes r.2)], none⟩
  else if is_srtla_reg2 buf then
    let r := conn_reg o.regSendOk gs src (buf.drop 2) ts
    ⟨r.1, [(src, replyBytes r.2)], none⟩
  else
    match findByAddr gs src with
    | none => ⟨gs, [], none⟩
    | some (_, none) => ⟨gs, [], none⟩
    | some (gi, some ci) => dataPath o gs gi ci src buf ts

/-- handle_srt_data: one datagram buf read from the upstream SRT socket of
the group at index gi.  A short read removes the group; an SRT ACK is
broadcast to every member; anything else goes to last_addr. -/
def handle_srt_data (gs : List Group) (gi : Nat) (buf : List Nat) :
    List Group × List (Addr × List Nat) :=
  let g := gs.getD gi dG
  if buf.length < SRT_MIN_LEN then (gs.eraseIdx gi, [])
  else if is_srt_ack buf then (gs, g.conns.map (fun c => (c.addr, buf)))
  else (gs, [(g.last_addr, buf)])

/-- The per-group connection sweep of connection_cleanup: drop every
connection with last_rcvd + CONN_TIMEOUT < ts. -/
def cleanupConns (ts : Int) (g : Group) : Group :=
  { g with conns := g.conns.filter (fun c => !decide (c.last_rcvd + CONN_TIMEOUT < ts)) }

/-- connection_cleanup: sweep each group's connections, then remove every
group left with no connections whose created_at + GROUP_TIMEOUT < ts. -/
def connection_cleanup (ts : Int) (gs : List Group) : List Group :=
  (gs.map (cleanupConns ts)).filter
    (fun g => !(g.conns.isEmpty && decide (g.created_at + GROUP_TIMEOUT < ts)))

/-- a is the address of some member connection of the group. -/
def memberOf (g : Group) (a : Addr) : Prop :=
  a ∈ g.conns.map Conn.addr

instance (g : Group) (a : Addr) : Decidable (memberOf g a) := by
  unfold memberOf; infer_instance

/-- Iterated register_packet over a list of data-packet sequence numbers
arriving on one connection: final connection state and the emitted SRTLA
ACK datagrams, in order. -/
def feedData : Conn → List Nat → Conn × List (List Nat)
  | c, [] => (c, [])
  | c, sn :: rest =>
    let r := register_packet c sn
    let rr := feedData r.1 rest
    (rr.1,
     (match r.2 with
      | some p => [p]
      | none => []) ++ rr.2)

/-!  The registry invariant.

The bare claim — each peer address is a member of at most one group — is
not inductive on its own: it is preserved only together with two facts
about last_addr (a group's last_addr is never a member address of a
different group, and last_addr values are pairwise distinct), which the
registration checks maintain through group_find_by_addr. -/

/-- The strengthened relation between two distinct registry groups. -/
def GPair (g1 g2 : Group) : Prop :=
  (∀ a, memberOf g1 a → ¬ memberOf g2 a) ∧
  ¬ memberOf g2 g1.last_addr ∧
  ¬ memberOf g1 g2.last_addr ∧
  g1.last_addr ≠ g2.last_addr

/-- The inductive registry invariant: pairwise GPair plus per-group
distinctness of member addresses. -/
def Inv (gs : List Group) : Prop :=
  gs.Pairwise GPair ∧ ∀ g ∈ gs, (g.conns.map Conn.addr).Nodup

/-!  Reachability: every state the event loop can produce from the empty
registry through the packet handlers and the cleanup sweep. -/

/-- One handler invocation, with arbitrary inputs and I/O outcomes. -/
inductive Step : List Group → List Group → Prop where
  | reg1 (s : Bool) (a : Addr) (ch sh : GroupId) (ts : Int) (gs : List Group) :
      Step gs (register_group s gs a ch sh ts).1
  | reg2 (s : Bool) (a : Addr) (id : GroupId) (ts : Int) (gs : List Group) :
      Step gs (conn_reg s gs a id ts).1
  | listen (o : NetOracle) (sh : GroupId) (src : Addr) (buf : List Nat)
      (ts : Int) (gs : List Group) :
      Step gs (handle_srtla_data o sh gs src buf ts).groups
  | upstreamRecv (gi : Nat) (buf : List Nat) (gs : List Group) :
      Step gs (handle_srt_data gs gi buf).1
  | reaper (ts : Int) (gs : List Group) :
      Step gs (connection_cleanup ts gs)

/-- Registry states reachable from the initial empty registry. -/
inductive Reachable : List Group → Prop where
  | init : Reachable []
  | step {gs gs' : List Group} (h : Reachable gs) (hs : Step gs gs') :
      Reachable gs'

/-!  Concrete states used by the witness theorems. -/

/-- A concrete one-group registry whose single group is retrievable
through its last_addr. -/
def gW : Group :=
  { id := [5], conns := [], srt_sock := false, last_addr := 7, created_at := 0 }

/-- A two-group registry in which the first group holds address 1 only as
its last_addr while the second group has a member connection at address 1. -/
def gsShadow : List Group :=
  [{ id := [1], conns := [], srt_sock := false, last_addr := 1, created_at := 0 },
   { id := [2],
     conns := [{ addr := 1, recv_log := [], recv_idx := 0, last_rcvd := 0 }],
     srt_sock := false, last_addr := 99, created_at := 0 }]

/-- A freshly registered one-group registry (the result of the concrete
REG1 exchange used by the registration witnesses). -/
def gReg : Group :=
  { id := [1, 2, 3, 4], conns := [], srt_sock := false, last_addr := 9,
    created_at := 5 }

/-- A two-member group used by the broadcast witness. -/
def gAck : Group :=
  { id := [1], conns := [newConn 4 0, newConn 5 0], srt_sock := true,
    last_addr := 4, created_at := 0 }

/-- A 16-byte SRT ACK control packet (first word 0x80020000). -/
def srtAckPkt : List Nat :=
  [0x80, 2, 0, 0, 0, 0, 0, 0, 0, 0, 0, 0, 0, 0, 0, 0]

/-- A group with one live (last_rcvd 95) and one stale (last_rcvd 50)
connection, used by the cleanup witness at time 100. -/
def gStale : Group :=
  { id := [1], conns := [newConn 4 50, newConn 5 95], srt_sock := false,
    last_addr := 4, created_at := 0 }

/-- A fresh connection with an empty ring, used by the ACK-batching
witness. -/
def cFeed : Conn :=
  { addr := 3, recv_log := List.replicate RECV_ACK_INT 0, recv_idx := 0,
    last_rcvd := 0 }

/-- A 16-byte SRT data packet with sequence number 0x01000000. -/
def dataPkt : List Nat :=
  [1, 0, 0, 0, 0, 0, 0, 0, 0, 0, 0, 0, 0, 0, 0, 0]

/-- The all-success I/O oracle. -/
def oAll : NetOracle :=
  { regSendOk := true, socketOk := true, connectOk := true, epollOk := true,
    upSendOk := true }

/-- An oracle whose upstream send fails. -/
def oSendFail : NetOracle :=
  { regSendOk := true, socketOk := true, connectOk := true, epollOk := true,
    upSendOk := false }

/-!  General list helpers. -/

theorem getD_eq_getElem {α : Type} {l : List α} {i : Nat} (d : α)
    (h : i < l.length) : l.getD i d = l[i] := by
  simp [List.getD_eq_getElem?_getD, List.getElem?_eq_getElem h]

theorem getD_set_self {α : Type} {l : List α} {i : Nat} (x d : α)
    (h : i < l.length) : (l.set i x).getD i d = x := by
  simp [List.getD_eq_getElem?_getD, List.getElem?_set_self h]

theorem getD_set_ne {α : Type} {l : List α} {i j : Nat} (x d : α)
    (h : i ≠ j) : (l.set i x).getD j d = l.getD j d := by
  simp [List.getD_eq_getElem?_getD, List.getElem?_set_ne h]

theorem set_getD_self {α : Type} {l : List α} {i : Nat} (d : α)
    (h : i < l.length) : l.set i (l.getD i d) = l := by
  induction l generalizing i with
  | nil => simp at h
  | cons a rest ih =>
    cases i with
    | zero => simp
    | succ n =>
      simp only [List.getD_cons_succ, List.set_cons_succ, List.cons.injEq, true_and]
      exact ih (by simpa using h)

theorem getD_mem {α : Type} {l : List α} {i : Nat} (d : α)
    (h : i < l.length) : l.getD i d ∈ l := by
  rw [getD_eq_getElem d h]; exact List.getElem_mem h

theorem map_set_apply {α β : Type} {l : List α} {i : Nat} {f : α → β}
    {u : α → α} (hu : ∀ a, f (u a) = f a) (d : α) :
    (l.set i (u (l.getD i d))).map f = l.map f := by
  induction l generalizing i with
  | nil => simp
  | cons a rest ih =>
    cases i with
    | zero => simp [hu]
    | succ n =>
      simp only [List.set_cons_succ, List.getD_cons_succ, List.map_cons, ih]

theorem getD_eraseIdx {α : Type} {l : List α} {i k : Nat} (d : α) :
    (l.eraseIdx i).getD k d = if k < i then l.getD k d else l.getD (k + 1) d := by
  induction l generalizing i k with
  | nil => cases i <;> cases k <;> simp [List.eraseIdx]
  | cons a rest ih =>
    cases i with
    | zero => simp [List.eraseIdx]
    | succ n =>
      cases k with
      | zero => simp [List.eraseIdx]
      | succ m =>
        simp only [List.eraseIdx, List.getD_cons_succ, ih]
        by_cases hmn : m < n <;> simp [hmn, Nat.add_lt_add_iff_right]

theorem eraseIdx_set {α : Type} {l : List α} {i : Nat} (x : α) :
    (l.set i x).eraseIdx i = l.eraseIdx i := by
  induction l generalizing i with
  | nil => simp
  | cons a rest ih =>
    cases i with
    | zero => simp [List.eraseIdx]
    | succ n => simp [List.eraseIdx, ih]

theorem take_set_succ {α : Type} {l : List α} {k : Nat} {x : α}
    (h : k < l.length) : (l.set k x).take (k + 1) = l.take k ++ [x] := by
  induction l generalizing k with
  | nil => simp at h
  | cons a rest ih =>
    cases k with
    | zero => simp
    | succ n =>
      simp only [List.set_cons_succ, List.take_succ_cons, List.cons_append,
        List.cons.injEq, true_and]
      exact ih (by simpa using h)

theorem set_last_eq_append {α : Type} {l : List α} {k : Nat} {x : α}
    (h : k + 1 = l.length) : l.set k x = l.take k ++ [x] := by
  rw [List.set_eq_take_cons_drop x (by omega)]
  have : l.drop (k + 1) = [] := List.drop_eq_nil_of_le (by omega)
  simp [this]

theorem nodup_getD_not_mem_eraseIdx {α : Type} {l : List α} {i : Nat} (d : α)
    (hnd : l.Nodup) (h : i < l.length) : l.getD i d ∉ l.eraseIdx i := by
  induction l generalizing i with
  | nil => simp at h
  | cons a rest ih =>
    cases i with
    | zero =>
      simp only [List.getD_cons_zero, List.eraseIdx]
      exact (List.nodup_cons.mp hnd).1
    | succ n =>
      simp only [List.getD_cons_succ, List.eraseIdx, List.mem_cons, not_or]
      constructor
      · intro heq
        exact (List.nodup_cons.mp hnd).1 (heq ▸ getD_mem d (by simpa using h))
      · exact ih (List.nodup_cons.mp hnd).2 (by simpa using h)

theorem map_eraseIdx {α β : Type} {l : List α} {i : Nat} (f : α → β) :
    (l.eraseIdx i).map f = (l.map f).eraseIdx i := by
  induction l generalizing i with
  | nil => simp
  | cons a rest ih =>
    cases i with
    | zero => simp [List.eraseIdx]
    | succ n => simp [List.eraseIdx, ih]

/-!  Characterizations of the search functions. -/

theorem connFind_eq_none {cs : List Conn} {a : Addr} :
    connFind cs a = none ↔ ∀ c ∈ cs, c.addr ≠ a := by
  induction cs with
  | nil => simp [connFind]
  | cons c rest ih =>
    by_cases h : c.addr = a
    · simp [connFind, h]
    · simp [connFind, h, Option.map_eq_none', ih]

theorem connFind_eq_some {cs : List Conn} {a : Addr} {j : Nat}
    (h : connFind cs a = some j) :
    j < cs.length ∧ (cs.getD j dC).addr = a ∧
      ∀ k, k < j → (cs.getD k dC).addr ≠ a := by
  induction cs generalizing j with
  | nil => simp [connFind] at h
  | cons c rest ih =>
    by_cases hc : c.addr = a
    · simp only [connFind, hc, if_pos rfl] at h
      cases h
      simp [hc]
    · simp only [connFind, if_neg hc, Option.map_eq_some'] at h
      obtain ⟨j', hj', rfl⟩ := h
      obtain ⟨h1, h2, h3⟩ := ih hj'
      refine ⟨by simpa using Nat.succ_lt_succ h1, by simpa using h2, ?_⟩
      intro k hk
      cases k with
      | zero => simpa using hc
      | succ m => simpa using h3 m (by omega)

theorem findById_eq_none {gs : List Group} {id : GroupId} :
    findById gs id = none ↔ ∀ g ∈ gs, g.id ≠ id := by
  induction gs with
  | nil => simp [findById]
  | cons g rest ih =>
    by_cases h : g.id = id
    · simp [findById, h]
    · simp [findById, h, Option.map_eq_none', ih]

theorem findById_eq_some {gs : List Group} {id : GroupId} {i : Nat}
    (h : findById gs id = some i) : i < gs.length ∧ (gs.getD i dG).id = id := by
  induction gs generalizing i with
  | nil => simp [findById] at h
  | cons g rest ih =>
    by_cases hg : g.id = id
    · simp only [findById, hg, if_pos rfl] at h
      cases h
      simp [hg]
    · simp only [findById, if_neg hg, Option.map_eq_some'] at h
      obtain ⟨i', hi', rfl⟩ := h
      obtain ⟨h1, h2⟩ := ih hi'
      exact ⟨by simpa using Nat.succ_lt_succ h1, by simpa using h2⟩

theorem not_memberOf_iff {g : Group} {a : Addr} :
    ¬ memberOf g a ↔ ∀ c ∈ g.conns, c.addr ≠ a := by
  simp [memberOf]

theorem findByAddr_eq_none {gs : List Group} {a : Addr}
    (h : findByAddr gs a = none) :
    ∀ g ∈ gs, ¬ memberOf g a ∧ g.last_addr ≠ a := by
  induction gs with
  | nil => simp
  | cons g rest ih =>
    intro g' hg'
    rcases hcf : connFind g.conns a with _ | j
    · by_cases hl : g.last_addr = a
      · simp [findByAddr, hcf, hl] at h
      · simp only [findByAddr, hcf, if_neg hl, Option.map_eq_none'] at h
        rcases List.mem_cons.mp hg' with rfl | hmem
        · exact ⟨not_memberOf_iff.mpr (connFind_eq_none.mp hcf), hl⟩
        · exact ih h g' hmem
    · simp [findByAddr, hcf] at h

theorem findByAddr_eq_some_some {gs : List Group} {a : Addr} {i j : Nat}
    (h : findByAddr gs a = some (i, some j)) :
    i < gs.length ∧ connFind (gs.getD i dG).conns a = some j ∧
      ∀ k, k < i → ¬ memberOf (gs.getD k dG) a ∧ (gs.getD k dG).last_addr ≠ a := by
  induction gs generalizing i with
  | nil => simp [findByAddr] at h
  | cons g rest ih =>
    rcases hcf : connFind g.conns a with _ | j'
    · by_cases hl : g.last_addr = a
      · simp [findByAddr, hcf, hl] at h
      · simp only [findByAddr, hcf, if_neg hl, Option.map_eq_some'] at h
        obtain ⟨⟨i', oc⟩, hfind, heq⟩ := h
        simp only [Prod.mk.injEq] at heq
        obtain ⟨hi, hoc⟩ := heq
        subst hoc
        cases i with
        | zero => omega
        | succ n =>
          have hn : i' = n := by omega
          subst hn
          obtain ⟨h1, h2, h3⟩ := ih hfind
          refine ⟨by simpa using Nat.succ_lt_succ h1, by simpa using h2, ?_⟩
          intro k hk
          cases k with
          | zero =>
            exact ⟨not_memberOf_iff.mpr (connFind_eq_none.mp hcf), by simpa using hl⟩
          | succ m => simpa using h3 m (by omega)
    · simp only [findByAddr, hcf] at h
      cases h
      simp [hcf]

theorem findByAddr_eq_some_none {gs : List Group} {a : Addr} {i : Nat}
    (h : findByAddr gs a = some (i, none)) :
    i < gs.length ∧ (gs.getD i dG).last_addr = a ∧ ¬ memberOf (gs.getD i dG) a ∧
      ∀ k, k < i → ¬ memberOf (gs.getD k dG) a ∧ (gs.getD k dG).last_addr ≠ a := by
  induction gs generalizing i with
  | nil => simp [findByAddr] at h
  | cons g rest ih =>
    rcases hcf : connFind g.conns a with _ | j'
    · by_cases hl : g.last_addr = a
      · simp only [findByAddr, hcf, if_pos hl] at h
        cases h
        refine ⟨by simp, by simpa using hl,
          by simpa using not_memberOf_iff.mpr (connFind_eq_none.mp hcf), by simp⟩
      · simp only [findByAddr, hcf, if_neg hl, Option.map_eq_some'] at h
        obtain ⟨⟨i', oc⟩, hfind, heq⟩ := h
        simp only [Prod.mk.injEq] at heq
        obtain ⟨hi, hoc⟩ := heq
        subst hoc
        cases i with
        | zero => omega
        | succ n =>
          have hn : i' = n := by omega
          subst hn
          obtain ⟨h1, h2, h3, h4⟩ := ih hfind
          refine ⟨by simpa using Nat.succ_lt_succ h1, by simpa using h2,
            by simpa using h3, ?_⟩
          intro k hk
          cases k with
          | zero =>
            exact ⟨not_memberOf_iff.mpr (connFind_eq_none.mp hcf), by simpa using hl⟩
          | succ m => simpa using h4 m (by omega)
    · simp [findByAddr, hcf] at h

theorem connFind_memberOf {g : Group} {a : Addr} {j : Nat}
    (h : connFind g.conns a = some j) : memberOf g a := by
  obtain ⟨h1, h2, _⟩ := connFind_eq_some h
  exact List.mem_map.mpr ⟨g.conns.getD j dC, getD_mem dC h1, h2⟩

theorem GPair_symm {g1 g2 : Group} (h : GPair g1 g2) : GPair g2 g1 :=
  ⟨fun a ha hb => h.1 a hb ha, h.2.2.1, h.2.1, (h.2.2.2).symm⟩

theorem GPair_congr_left {g1 g1' g2 : Group}
    (hm : ∀ a, memberOf g1' a → memberOf g1 a)
    (hl : g1'.last_addr = g1.last_addr) (h : GPair g1 g2) : GPair g1' g2 := by
  refine ⟨fun a ha => h.1 a (hm a ha), ?_, fun hc => h.2.2.1 (hm _ hc), ?_⟩
  · rw [hl]; exact h.2.1
  · rw [hl]; exact h.2.2.2

theorem pairwise_pairs {gs : List Group} (h : gs.Pairwise GPair) {i j : Nat}
    (hi : i < gs.length) (hj : j < gs.length) (hij : i ≠ j) :
    GPair (gs.getD i dG) (gs.getD j dG) := by
  rw [List.pairwise_iff_getElem] at h
  rw [getD_eq_getElem dG hi, getD_eq_getElem dG hj]
  rcases Nat.lt_or_ge i j with hlt | hge
  · exact h i j hi hj hlt
  · have hlt : j < i := by omega
    exact GPair_symm (h j i hj hi hlt)

theorem pairwise_set_of {gs : List Group} {i : Nat} {x : Group}
    (h : gs.Pairwise GPair)
    (hx : ∀ j, j < gs.length → j ≠ i → GPair x (gs.getD j dG)) :
    (gs.set i x).Pairwise GPair := by
  rw [List.pairwise_iff_getElem] at h ⊢
  intro p q hp hq hpq
  have hp' : p < gs.length := by simpa using hp
  have hq' : q < gs.length := by simpa using hq
  have hsp : (gs.set i x)[p] = (gs.set i x).getD p dG :=
    (getD_eq_getElem dG hp).symm
  have hsq : (gs.set i x)[q] = (gs.set i x).getD q dG :=
    (getD_eq_getElem dG hq).symm
  rw [hsp, hsq]
  by_cases hpi : p = i
  · subst hpi
    have hqp : q ≠ p := by omega
    rw [getD_set_self x dG hp', getD_set_ne x dG (Ne.symm hqp)]
    exact hx q hq' hqp
  · rw [getD_set_ne x dG (fun hh => hpi hh.symm)]
    by_cases hqi : q = i
    · subst hqi
      rw [getD_set_self x dG hq']
      exact GPair_symm (hx p hp' hpi)
    · rw [getD_set_ne x dG (fun hh => hqi hh.symm)]
      exact pairwise_pairs (List.pairwise_iff_getElem.mpr h) hp' hq' (by omega)

theorem mem_set_cases {α : Type} {l : List α} {i : Nat} {x y : α}
    (h : y ∈ l.set i x) : y ∈ l ∨ y = x := by
  induction l generalizing i with
  | nil => simp at h
  | cons a rest ih =>
    cases i with
    | zero =>
      rcases List.mem_cons.mp h with rfl | hm
      · right; rfl
      · left; exact List.mem_cons_of_mem _ hm
    | succ n =>
      rcases List.mem_cons.mp h with rfl | hm
      · left; exact List.mem_cons_self _ _
      · rcases ih hm with hl | hr
        · left; exact List.mem_cons_of_mem _ hl
        · right; exact hr

theorem inv_sublist {gs gs' : List Group} (hsub : gs'.Sublist gs)
    (h : Inv gs) : Inv gs' :=
  ⟨h.1.sublist hsub, fun g hg => h.2 g (hsub.mem hg)⟩

theorem inv_eraseIdx {gs : List Group} (i : Nat) (h : Inv gs) :
    Inv (gs.eraseIdx i) :=
  inv_sublist (List.eraseIdx_sublist gs i) h

theorem inv_set_congr {gs : List Group} {i : Nat} {g' : Group} (h : Inv gs)
    (hi : i < gs.length)
    (haddr : g'.conns.map Conn.addr = (gs.getD i dG).conns.map Conn.addr)
    (hlast : g'.last_addr = (gs.getD i dG).last_addr) : Inv (gs.set i g') := by
  constructor
  · refine pairwise_set_of h.1 (fun j hj hji => ?_)
    refine GPair_congr_left (fun a ha => ?_) hlast
      (pairwise_pairs h.1 hi hj (fun hh => hji hh.symm))
    unfold memberOf at ha ⊢
    rw [haddr] at ha
    exact ha
  · intro g hg
    rcases mem_set_cases hg with hm | rfl
    · exact h.2 g hm
    · rw [haddr]
      exact h.2 _ (getD_mem dG hi)

theorem inv_set_lastaddr_member {gs : List Group} {i : Nat} {a : Addr}
    (h : Inv gs) (hi : i < gs.length)
    (hmem : memberOf (gs.getD i dG) a) :
    Inv (gs.set i { gs.getD i dG with last_addr := a }) := by
  constructor
  · refine pairwise_set_of h.1 (fun j hj hji => ?_)
    have hp := pairwise_pairs h.1 hi hj (fun hh => hji hh.symm)
    refine ⟨fun x hx => hp.1 x hx, hp.1 a hmem, hp.2.2.1, ?_⟩
    intro hla
    exact hp.2.2.1 (hla ▸ hmem)
  · intro g hg
    rcases mem_set_cases hg with hm | rfl
    · exact h.2 g hm
    · show ((gs.getD i dG).conns.map Conn.addr).Nodup
      exact h.2 (gs.getD i dG) (getD_mem dG hi)

theorem inv_set_addconn {gs : List Group} {i : Nat} {a : Addr} {ts : Int}
    (h : Inv gs) (hi : i < gs.length)
    (hno : ¬ memberOf (gs.getD i dG) a)
    (hother : ∀ j, j < gs.length → j ≠ i →
      ¬ memberOf (gs.getD j dG) a ∧ (gs.getD j dG).last_addr ≠ a) :
    Inv (gs.set i { gs.getD i dG with
      conns := (gs.getD i dG).conns ++ [newConn a ts], last_addr := a }) := by
  have haddrs : ∀ x, memberOf { gs.getD i dG with
      conns := (gs.getD i dG).conns ++ [newConn a ts], last_addr := a } x ↔
      (memberOf (gs.getD i dG) x ∨ x = a) := by
    intro x
    simp [memberOf, newConn, or_comm, eq_comm]
  constructor
  · refine pairwise_set_of h.1 (fun j hj hji => ?_)
    have hp := pairwise_pairs h.1 hi hj (fun hh => hji hh.symm)
    refine ⟨fun x hx => ?_, (hother j hj hji).1, fun hc => ?_, ?_⟩
    · rcases (haddrs x).mp hx with hm | rfl
      · exact hp.1 x hm
      · exact (hother j hj hji).1
    · rcases (haddrs _).mp hc with hm | heq
      · exact hp.2.2.1 hm
      · exact (hother j hj hji).2 heq
    · exact fun hla => (hother j hj hji).2 hla.symm
  · intro g hg
    rcases mem_set_cases hg with hm | rfl
    · exact h.2 g hm
    · have hnd := h.2 _ (getD_mem dG hi)
      simp only [List.map_append, List.map_cons, List.map_nil, newConn]
      rw [List.nodup_append]
      refine ⟨hnd, List.nodup_singleton a, ?_⟩
      intro x hx hx'
      simp only [List.mem_singleton] at hx'
      subst hx'
      exact hno hx

/-!  Case equations for the registration handlers. -/

theorem register_group_full {gs : List Group} (s : Bool) (a : Addr)
    (ch sh : GroupId) (ts : Int) (h : MAX_GROUPS ≤ gs.length) :
    register_group s gs a ch sh ts = (gs, .regErr) := by
  simp [register_group, h]

theorem register_group_dup {gs : List Group} {a : Addr} {r : Nat × Option Nat}
    (s : Bool) (ch sh : GroupId) (ts : Int) (h : gs.length < MAX_GROUPS)
    (hfa : findByAddr gs a = some r) :
    register_group s gs a ch sh ts = (gs, .regErr) := by
  simp [register_group, Nat.not_le.mpr h, hfa]

theorem register_group_ok {gs : List Group} {a : Addr} (ch sh : GroupId)
    (ts : Int) (h : gs.length < MAX_GROUPS) (hfa : findByAddr gs a = none) :
    register_group true gs a ch sh ts =
      (gs ++ [{ id := ch ++ sh, conns := [], srt_sock := false,
                last_addr := a, created_at := ts }], .reg2 (ch ++ sh)) := by
  simp [register_group, Nat.not_le.mpr h, hfa]

theorem register_group_sendfail {gs : List Group} {a : Addr} (ch sh : GroupId)
    (ts : Int) (h : gs.length < MAX_GROUPS) (hfa : findByAddr gs a = none) :
    register_group false gs a ch sh ts = (gs, .reg2 (ch ++ sh)) := by
  simp [register_group, Nat.not_le.mpr h, hfa]

theorem conn_reg_ngp {gs : List Group} {id : GroupId} (s : Bool) (a : Addr)
    (ts : Int) (h : findById gs id = none) :
    conn_reg s gs a id ts = (gs, .regNgp) := by
  simp [conn_reg, h]

theorem conn_reg_mismatch {gs : List Group} {id : GroupId} {gi ti : Nat}
    {oc : Option Nat} (s : Bool) (a : Addr) (ts : Int)
    (hid : findById gs id = some gi) (hfa : findByAddr gs a = some (ti, oc))
    (hne : ti ≠ gi) : conn_reg s gs a id ts = (gs, .regErr) := by
  simp [conn_reg, hid, hfa, hne]

theorem conn_reg_rereg {gs : List Group} {id : GroupId} {gi ci : Nat}
    (s : Bool) (a : Addr) (ts : Int)
    (hid : findById gs id = some gi) (hfa : findByAddr gs a = some (gi, some ci)) :
    conn_reg s gs a id ts =
      if s then (gs.set gi { gs.getD gi dG with last_addr := a }, .reg3)
      else (gs, .reg3) := by
  cases s <;> simp [conn_reg, hid, hfa]

theorem conn_reg_capacity {gs : List Group} {id : GroupId} {gi : Nat}
    (s : Bool) (a : Addr) (ts : Int) (hid : findById gs id = some gi)
    (hfa : findByAddr gs a = none ∨ findByAddr gs a = some (gi, none))
    (hfull : MAX_CONNS_PER_GROUP ≤ (gs.getD gi dG).conns.length) :
    conn_reg s gs a id ts = (gs, .regErr) := by
  simp only [List.getD_eq_getElem?_getD] at hfull
  rcases hfa with hfa | hfa <;>
    simp [conn_reg, hid, hfa, Nat.not_lt.mpr hfull]

theorem conn_reg_newconn {gs : List Group} {id : GroupId} {gi : Nat}
    (s : Bool) (a : Addr) (ts : Int) (hid : findById gs id = some gi)
    (hfa : findByAddr gs a = none ∨ findByAddr gs a = some (gi, none))
    (hlt : (gs.getD gi dG).conns.length < MAX_CONNS_PER_GROUP) :
    conn_reg s gs a id ts =
      if s then
        (gs.set gi { gs.getD gi dG with
          conns := (gs.getD gi dG).conns ++ [newConn a ts], last_addr := a },
         .reg3)
      else (gs, .reg3) := by
  simp only [List.getD_eq_getElem?_getD] at hlt
  rcases hfa with hfa | hfa <;>
    cases s <;> simp [conn_reg, hid, hfa, hlt]

/-!  Invariant preservation, operation by operation. -/

theorem register_group_inv {gs : List Group} (s : Bool) (a : Addr)
    (ch sh : GroupId) (ts : Int) (h : Inv gs) :
    Inv (register_group s gs a ch sh ts).1 := by
  by_cases hfull : MAX_GROUPS ≤ gs.length
  · rw [register_group_full s a ch sh ts hfull]; exact h
  · have hlt : gs.length < MAX_GROUPS := Nat.lt_of_not_le hfull
    rcases hfa : findByAddr gs a with _ | r
    · cases s
      · rw [register_group_sendfail ch sh ts hlt hfa]; exact h
      · rw [register_group_ok ch sh ts hlt hfa]
        have hchar := findByAddr_eq_none hfa
        constructor
        · rw [List.pairwise_append]
          refine ⟨h.1, List.pairwise_singleton _ _, ?_⟩
          intro g hg g0 hg0
          simp only [List.mem_singleton] at hg0
          subst hg0
          exact ⟨fun x _ hx0 => by simp [memberOf] at hx0,
            by simp [memberOf], (hchar g hg).1, (hchar g hg).2⟩
        · intro g hg
          rcases List.mem_append.mp hg with hmem | hmem
          · exact h.2 g hmem
          · simp only [List.mem_singleton] at hmem
            subst hmem
            simp
    · rw [register_group_dup s ch sh ts hlt hfa]; exact h

theorem conn_reg_inv {gs : List Group} (s : Bool) (a : Addr) (id : GroupId)
    (ts : Int) (h : Inv gs) : Inv (conn_reg s gs a id ts).1 := by
  rcases hid : findById gs id with _ | gi
  · rw [conn_reg_ngp s a ts hid]; exact h
  · have hgi := (findById_eq_some hid).1
    have newconn_case : ∀ hfa2 : findByAddr gs a = none ∨ findByAddr gs a = some (gi, none),
        (¬ memberOf (gs.getD gi dG) a) →
        (∀ j, j < gs.length → j ≠ gi →
          ¬ memberOf (gs.getD j dG) a ∧ (gs.getD j dG).last_addr ≠ a) →
        Inv (conn_reg s gs a id ts).1 := by
      intro hfa2 hno hother
      by_cases hcap : MAX_CONNS_PER_GROUP ≤ (gs.getD gi dG).conns.length
      · rw [conn_reg_capacity s a ts hid hfa2 hcap]; exact h
      · rw [conn_reg_newconn s a ts hid hfa2 (Nat.lt_of_not_le hcap)]
        cases s
        · simpa using h
        · simpa using inv_set_addconn h hgi hno hother
    rcases hfa : findByAddr gs a with _ | ⟨ti, oc⟩
    · refine newconn_case (Or.inl hfa) ?_ ?_
      · exact (findByAddr_eq_none hfa _ (getD_mem dG hgi)).1
      · intro j hj _
        exact findByAddr_eq_none hfa _ (getD_mem dG hj)
    · by_cases hti : ti = gi
      · subst hti
        rcases oc with _ | ci
        · obtain ⟨hlen, hlast, hnomem, hpre⟩ := findByAddr_eq_some_none hfa
          refine newconn_case (Or.inr hfa) hnomem ?_
          intro j hj hji
          rcases Nat.lt_or_ge j ti with hjlt | hjge
          · exact hpre j hjlt
          · have hp := pairwise_pairs h.1 hlen hj (fun hh => hji hh.symm)
            exact ⟨by rw [← hlast]; exact hp.2.1,
              by rw [← hlast]; exact fun hh => hp.2.2.2 hh.symm⟩
        · rw [conn_reg_rereg s a ts hid hfa]
          cases s
          · simpa using h
          · simpa using inv_set_lastaddr_member h hgi
              (connFind_memberOf (findByAddr_eq_some_some hfa).2.1)
      · rw [conn_reg_mismatch s a ts hid hfa hti]; exact h

theorem register_packet_addr (c : Conn) (sn : Nat) :
    ((register_packet c sn).1).addr = c.addr := by
  unfold register_packet
  dsimp only
  split <;> rfl

theorem updateGroup_length (gs : List Group) (i : Nat) (f : Group → Group) :
    (updateGroup gs i f).length = gs.length :=
  List.length_set gs i _

theorem updateGroup_getD_self {gs : List Group} {i : Nat} (f : Group → Group)
    (hi : i < gs.length) : (updateGroup gs i f).getD i dG = f (gs.getD i dG) :=
  getD_set_self _ dG hi

theorem updateGroup_getD_ne {gs : List Group} {i j : Nat} (f : Group → Group)
    (hij : i ≠ j) : (updateGroup gs i f).getD j dG = gs.getD j dG :=
  getD_set_ne _ dG hij

theorem set_oob {α : Type} {l : List α} {i : Nat} (x : α)
    (h : l.length ≤ i) : l.set i x = l := by
  induction l generalizing i with
  | nil => simp
  | cons a rest ih =>
    cases i with
    | zero => simp at h
    | succ n => simp [ih (by simpa using h)]

theorem inv_updateGroup_congr {gs : List Group} (i : Nat) {f : Group → Group}
    (haddr : ∀ g, (f g).conns.map Conn.addr = g.conns.map Conn.addr)
    (hlast : ∀ g, (f g).last_addr = g.last_addr) (h : Inv gs) :
    Inv (updateGroup gs i f) := by
  by_cases hi : i < gs.length
  · exact inv_set_congr h hi (haddr _) (hlast _)
  · unfold updateGroup
    rw [set_oob _ (Nat.le_of_not_lt hi)]
    exact h

theorem updateConnIn_addrs (g : Group) (ci : Nat) (f : Conn → Conn)
    (hf : ∀ c, (f c).addr = c.addr) :
    (updateConnIn g ci f).conns.map Conn.addr = g.conns.map Conn.addr :=
  map_set_apply hf dC

theorem touchConn_inv {gs : List Group} (gi ci : Nat) (ts : Int) (h : Inv gs) :
    Inv (touchConn gs gi ci ts) :=
  inv_updateGroup_congr gi
    (fun g => updateConnIn_addrs g ci _ (fun _ => rfl)) (fun _ => rfl) h

theorem touchConn_memberOf {gs : List Group} {gi : Nat} (ci : Nat) (ts : Int)
    {a : Addr} (hgi : gi < gs.length)
    (hmem : memberOf (gs.getD gi dG) a) :
    memberOf ((touchConn gs gi ci ts).getD gi dG) a := by
  unfold touchConn
  rw [updateGroup_getD_self _ hgi]
  unfold memberOf
  rw [updateConnIn_addrs _ ci (fun c => { c with last_rcvd := ts }) (fun _ => rfl)]
  exact hmem

theorem setLastAddr_inv {gs : List Group} {gi : Nat} {src : Addr}
    (hgi : gi < gs.length) (hmem : memberOf (gs.getD gi dG) src)
    (h : Inv gs) : Inv (setLastAddr gs gi src) :=
  inv_set_lastaddr_member h hgi hmem

theorem recordPacket_group_addrs (g : Group) (ci sn : Nat) :
    ({ g with conns :=
        g.conns.set ci (register_packet (g.conns.getD ci dC) sn).1 } : Group).conns.map
      Conn.addr = g.conns.map Conn.addr :=
  map_set_apply (fun c => register_packet_addr c sn) dC

theorem recordPacket_inv {gs : List Group} (gi ci : Nat) (sn : Nat)
    (h : Inv gs) : Inv (recordPacket gs gi ci sn).1 := by
  by_cases hgi : gi < gs.length
  · unfold recordPacket updateGroup
    dsimp only
    exact inv_set_congr h hgi (recordPacket_group_addrs _ ci sn) rfl
  · unfold recordPacket updateGroup
    dsimp only
    rw [set_oob _ (Nat.le_of_not_lt hgi)]
    exact h

theorem forwardUpstream_inv {gs : List Group} (o : NetOracle) (gi : Nat)
    (acks : List (Addr × List Nat)) (buf : List Nat) (h : Inv gs) :
    Inv (forwardUpstream o gs gi acks buf).groups := by
  have hset : Inv (updateGroup gs gi (fun g => { g with srt_sock := true })) :=
    inv_updateGroup_congr gi (fun _ => rfl) (fun _ => rfl) h
  unfold forwardUpstream
  dsimp only
  split
  · split
    · exact inv_eraseIdx gi h
    · split
      · exact inv_eraseIdx gi hset
      · split
        · exact inv_eraseIdx gi hset
        · split
          · exact inv_eraseIdx gi hset
          · exact hset
  · split
    · exact inv_eraseIdx gi h
    · exact h

theorem dataPath_inv {gs : List Group} (o : NetOracle) {gi : Nat} (ci : Nat)
    {src : Addr} (buf : List Nat) (ts : Int) (h : Inv gs)
    (hgi : gi < gs.length) (hmem : memberOf (gs.getD gi dG) src) :
    Inv (dataPath o gs gi ci src buf ts).groups := by
  have h1 : Inv (touchConn gs gi ci ts) := touchConn_inv gi ci ts h
  have hgi1 : gi < (touchConn gs gi ci ts).length := by
    unfold touchConn
    rw [updateGroup_length]
    exact hgi
  have hmem1 := touchConn_memberOf ci ts hgi hmem
  have h2 : Inv (setLastAddr (touchConn gs gi ci ts) gi src) :=
    setLastAddr_inv hgi1 hmem1 h1
  unfold dataPath
  dsimp only
  split
  · exact h1
  · split
    · exact h1
    · by_cases hsn : (0 : Int) ≤ get_srt_sn buf
      · rw [if_pos hsn]
        exact forwardUpstream_inv o gi _ buf (recordPacket_inv gi ci _ h2)
      · rw [if_neg hsn]
        exact forwardUpstream_inv o gi _ buf h2

theorem handle_srtla_data_inv (o : NetOracle) (sh : GroupId) {gs : List Group}
    (src : Addr) (buf : List Nat) (ts : Int) (h : Inv gs) :
    Inv (handle_srtla_data o sh gs src buf ts).groups := by
  unfold handle_srtla_data
  split
  · dsimp only
    exact register_group_inv o.regSendOk src (buf.drop 2) sh ts h
  · split
    · dsimp only
      exact conn_reg_inv o.regSendOk src (buf.drop 2) ts h
    · rcases hfa : findByAddr gs src with _ | ⟨gi, oc⟩
      · simp only [hfa]
        exact h
      · rcases oc with _ | ci
        · simp only [hfa]
          exact h
        · simp only [hfa]
          obtain ⟨hgi, hcf, _⟩ := findByAddr_eq_some_some hfa
          exact dataPath_inv o ci buf ts h hgi (connFind_memberOf hcf)

theorem handle_srt_data_inv {gs : List Group} (gi : Nat) (buf : List Nat)
    (h : Inv gs) : Inv (handle_srt_data gs gi buf).1 := by
  unfold handle_srt_data
  dsimp only
  split
  · exact inv_eraseIdx gi h
  · split
    · exact h
    · exact h

theorem cleanupConns_member {ts : Int} {g : Group} {a : Addr}
    (h : memberOf (cleanupConns ts g) a) : memberOf g a :=
  List.Sublist.mem h (List.Sublist.map Conn.addr (List.filter_sublist g.conns))

theorem connection_cleanup_inv {gs : List Group} (ts : Int) (h : Inv gs) :
    Inv (connection_cleanup ts gs) := by
  unfold connection_cleanup
  apply inv_sublist (List.filter_sublist _)
  constructor
  · rw [List.pairwise_map]
    refine h.1.imp ?_
    intro g1 g2 hp
    refine GPair_congr_left (fun a ha => cleanupConns_member ha) rfl ?_
    exact GPair_symm (GPair_congr_left (fun a ha => cleanupConns_member ha) rfl
      (GPair_symm hp))
  · intro g' hg'
    rcases List.mem_map.mp hg' with ⟨g, hg, rfl⟩
    exact List.Nodup.sublist (List.Sublist.map Conn.addr (List.filter_sublist g.conns))
      (h.2 g hg)

theorem step_inv {gs gs' : List Group} (h : Inv gs) (hs : Step gs gs') :
    Inv gs' := by
  cases hs with
  | reg1 s a ch sh ts gs => exact register_group_inv s a ch sh ts h
  | reg2 s a id ts gs => exact conn_reg_inv s a id ts h
  | listen o sh src buf ts gs => exact handle_srtla_data_inv o sh src buf ts h
  | upstreamRecv gi buf gs => exact handle_srt_data_inv gi buf h
  | reaper ts gs => exact connection_cleanup_inv ts h

theorem reachable_inv {gs : List Group} (h : Reachable gs) : Inv gs := by
  induction h with
  | init => exact ⟨List.Pairwise.nil, by simp⟩
  | step _ hs ih => exact step_inv ih hs

/-!  The ACK ring: iterating register_packet. -/

theorem encodeLog_length (l : List Nat) : (encodeLog l).length = 4 * l.length := by
  induction l with
  | nil => simp [encodeLog]
  | cons sn rest ih => simp [encodeLog, be32, ih]; omega

theorem register_packet_mid {c : Conn} (sn : Nat)
    (h : c.recv_idx + 1 ≠ RECV_ACK_INT) :
    register_packet c sn =
      ({ c with
          recv_log := c.recv_log.set c.recv_idx sn,
          recv_idx := c.recv_idx + 1 }, none) := by
  simp [register_packet, h]

theorem register_packet_last {c : Conn} (sn : Nat)
    (h : c.recv_idx + 1 = RECV_ACK_INT) :
    register_packet c sn =
      ({ c with recv_log := c.recv_log.set c.recv_idx sn, recv_idx := 0 },
       some (ackBytes (c.recv_log.set c.recv_idx sn))) := by
  simp [register_packet, h]

theorem feed_partial (sns : List Nat) : ∀ c : Conn,
    c.recv_idx + sns.length < RECV_ACK_INT →
    (feedData c sns).2 = [] ∧
      (feedData c sns).1.recv_idx = c.recv_idx + sns.length := by
  induction sns with
  | nil =>
    intro c _
    simp [feedData]
  | cons sn rest ih =>
    intro c h
    simp only [List.length_cons] at h
    have hne : c.recv_idx + 1 ≠ RECV_ACK_INT := by omega
    have hstep := register_packet_mid sn hne
    obtain ⟨h1, h2⟩ := ih
      { c with
        recv_log := c.recv_log.set c.recv_idx sn,
        recv_idx := c.recv_idx + 1 } (by simp; omega)
    simp only [feedData, hstep, h1, List.append_nil]
    refine ⟨by trivial, ?_⟩
    rw [h2]
    simp
    omega

theorem feed_fill (sns : List Nat) : ∀ c : Conn, sns ≠ [] →
    c.recv_log.length = RECV_ACK_INT →
    c.recv_idx + sns.length = RECV_ACK_INT →
    feedData c sns =
      ({ c with recv_log := c.recv_log.take c.recv_idx ++ sns, recv_idx := 0 },
       [ackBytes (c.recv_log.take c.recv_idx ++ sns)]) := by
  induction sns with
  | nil =>
    intro c hne _ _
    cases hne rfl
  | cons sn rest ih =>
    intro c _ hlog hsum
    simp only [List.length_cons] at hsum
    by_cases hrest : rest = []
    · subst hrest
      have hidx : c.recv_idx + 1 = RECV_ACK_INT := by simpa using hsum
      have hset : c.recv_log.set c.recv_idx sn = c.recv_log.take c.recv_idx ++ [sn] :=
        set_last_eq_append (by omega)
      simp [feedData, register_packet_last sn hidx, hset]
    · have hrlen : 1 ≤ rest.length := by
        cases rest with
        | nil => cases hrest rfl
        | cons x xs => simp
      have hne : c.recv_idx + 1 ≠ RECV_ACK_INT := by omega
      have hstep := register_packet_mid sn hne
      have hih := ih
        { c with
          recv_log := c.recv_log.set c.recv_idx sn,
          recv_idx := c.recv_idx + 1 } hrest (by simp [hlog]) (by simp; omega)
      simp only [feedData, hstep, hih, List.nil_append]
      have htake : (c.recv_log.set c.recv_idx sn).take (c.recv_idx + 1) =
          c.recv_log.take c.recv_idx ++ [sn] :=
        take_set_succ (by omega)
      simp [htake]

/-!  Case equations for the data-plane handlers. -/

theorem dataPath_keepalive {buf : List Nat} (o : NetOracle) (gs : List Group)
    (gi ci : Nat) (src : Addr) (ts : Int)
    (hk : is_srtla_keepalive buf = true) :
    dataPath o gs gi ci src buf ts = ⟨touchConn gs gi ci ts, [(src, buf)], none⟩ := by
  simp [dataPath, hk]

theorem dataPath_short {buf : List Nat} (o : NetOracle) (gs : List Group)
    (gi ci : Nat) (src : Addr) (ts : Int)
    (hk : is_srtla_keepalive buf = false) (hn : buf.length < SRT_MIN_LEN) :
    dataPath o gs gi ci src buf ts = ⟨touchConn gs gi ci ts, [], none⟩ := by
  simp [dataPath, hk, hn]

theorem dataPath_main {buf : List Nat} (o : NetOracle) (gs : List Group)
    (gi ci : Nat) (src : Addr) (ts : Int)
    (hk : is_srtla_keepalive buf = false) (hn : SRT_MIN_LEN ≤ buf.length) :
    dataPath o gs gi ci src buf ts =
      (let gs2 := setLastAddr (touchConn gs gi ci ts) gi src
       let rp := if 0 ≤ get_srt_sn buf then
           recordPacket gs2 gi ci (get_srt_sn buf).toNat
         else (gs2, [])
       forwardUpstream o rp.1 gi rp.2 buf) := by
  simp [dataPath, hk, Nat.not_lt.mpr hn]

theorem handle_nonreg_nomatch {buf : List Nat} (o : NetOracle) (sh : GroupId)
    (gs : List Group) (src : Addr) (ts : Int)
    (h1 : is_srtla_reg1 buf = false) (h2 : is_srtla_reg2 buf = false)
    (hfa : findByAddr gs src = none) :
    handle_srtla_data o sh gs src buf ts = ⟨gs, [], none⟩ := by
  simp [handle_srtla_data, h1, h2, hfa]

theorem handle_nonreg_lastaddr {buf : List Nat} {gi : Nat} (o : NetOracle)
    (sh : GroupId) (gs : List Group) (src : Addr) (ts : Int)
    (h1 : is_srtla_reg1 buf = false) (h2 : is_srtla_reg2 buf = false)
    (hfa : findByAddr gs src = some (gi, none)) :
    handle_srtla_data o sh gs src buf ts = ⟨gs, [], none⟩ := by
  simp [handle_srtla_data, h1, h2, hfa]

theorem handle_nonreg_member {buf : List Nat} {gi ci : Nat} (o : NetOracle)
    (sh : GroupId) (gs : List Group) (src : Addr) (ts : Int)
    (h1 : is_srtla_reg1 buf = false) (h2 : is_srtla_reg2 buf = false)
    (hfa : findByAddr gs src = some (gi, some ci)) :
    handle_srtla_data o sh gs src buf ts = dataPath o gs gi ci src buf ts := by
  simp [handle_srtla_data, h1, h2, hfa]

theorem updateGroup_preserves {α : Type} {gs : List Group} {i j : Nat}
    (P : Group → α) (f : Group → Group) (hP : ∀ g, P (f g) = P g) :
    P ((updateGroup gs i f).getD j dG) = P (gs.getD j dG) := by
  by_cases hij : i = j
  · subst hij
    by_cases hi : i < gs.length
    · rw [updateGroup_getD_self _ hi, hP]
    · unfold updateGroup
      rw [set_oob _ (Nat.le_of_not_lt hi)]
  · rw [updateGroup_getD_ne _ hij]

theorem updateGroup_eraseIdx (gs : List Group) (i : Nat) (f : Group → Group) :
    (updateGroup gs i f).eraseIdx i = gs.eraseIdx i :=
  eraseIdx_set _

theorem forwardUpstream_fail {gs : List Group} {gi : Nat} (o : NetOracle)
    (acks : List (Addr × List Nat)) (buf : List Nat)
    (hfail : ((gs.getD gi dG).srt_sock = false ∧
        (o.socketOk = false ∨ o.connectOk = false ∨ o.epollOk = false ∨
          o.upSendOk = false)) ∨
      ((gs.getD gi dG).srt_sock = true ∧ o.upSendOk = false)) :
    (forwardUpstream o gs gi acks buf).groups = gs.eraseIdx gi := by
  unfold forwardUpstream
  dsimp only
  rcases hfail with ⟨hss, hor⟩ | ⟨hss, hup⟩
  · rw [if_pos hss]
    by_cases hsk : o.socketOk = false
    · rw [if_pos hsk]
    · rw [if_neg hsk]
      by_cases hcn : o.connectOk = false
      · rw [if_pos hcn]
        exact updateGroup_eraseIdx gs gi _
      · rw [if_neg hcn]
        by_cases hep : o.epollOk = false
        · rw [if_pos hep]
          exact updateGroup_eraseIdx gs gi _
        · rw [if_neg hep]
          have hups : o.upSendOk = false := by
            rcases hor with h | h | h | h
            · exact absurd h hsk
            · exact absurd h hcn
            · exact absurd h hep
            · exact h
          rw [if_pos hups]
          exact updateGroup_eraseIdx gs gi _
  · rw [if_neg (show ¬((gs.getD gi dG).srt_sock = false) by rw [hss]; simp),
      if_pos hup]

theorem forwardUpstream_allOk {gs : List Group} {o : NetOracle} (gi : Nat)
    (acks : List (Addr × List Nat)) (buf : List Nat)
    (h1 : o.socketOk = true) (h2 : o.connectOk = true) (h3 : o.epollOk = true)
    (h4 : o.upSendOk = true) :
    forwardUpstream o gs gi acks buf =
      ⟨if (gs.getD gi dG).srt_sock = false then
          updateGroup gs gi (fun g => { g with srt_sock := true })
        else gs, acks, some buf⟩ := by
  unfold forwardUpstream
  dsimp only
  simp only [h1, h2, h3, h4]
  split <;> simp

/-!  Claim theorems. -/

/-- C1 (amended): group_find_by_addr scans the registry group by group,
checking each group's member connections and then that same group's
last_addr before moving on.  Member matches therefore take priority over
the last_addr check only within each group and within all
earlier-scanned groups: a result (i, none) guarantees that no group up to
and including i holds a member connection with the address, but a later
group still may.  A result (i, some j) is an exact member match at the
first matching group. -/
theorem find_by_addr_search_order (gs : List Group) (a : Addr) :
    (findByAddr gs a = none →
      ∀ g ∈ gs, ¬ memberOf g a ∧ g.last_addr ≠ a) ∧
    (∀ i j, findByAddr gs a = some (i, some j) →
      i < gs.length ∧ ((gs.getD i dG).conns.getD j dC).addr = a ∧
      (∀ k, k < i → ¬ memberOf (gs.getD k dG) a ∧ (gs.getD k dG).last_addr ≠ a)) ∧
    (∀ i, findByAddr gs a = some (i, none) →
      i < gs.length ∧ (gs.getD i dG).last_addr = a ∧
      ¬ memberOf (gs.getD i dG) a ∧
      (∀ k, k < i → ¬ memberOf (gs.getD k dG) a ∧ (gs.getD k dG).last_addr ≠ a)) := by
  refine ⟨fun h => findByAddr_eq_none h, fun i j h => ?_, fun i h => ?_⟩
  · obtain ⟨h1, h2, h3⟩ := findByAddr_eq_some_some h
    exact ⟨h1, (connFind_eq_some h2).2.1, h3⟩
  · obtain ⟨h1, h2, h3, h4⟩ := findByAddr_eq_some_none h
    exact ⟨h1, h2, h3, h4⟩

/-- C1 witness: a concrete instantiation of the search-order theorem on a
one-group registry matched through last_addr. -/
theorem find_by_addr_search_order_witness :
    findByAddr [gW] 7 = some (0, none) ∧ (([gW].getD 0 dG)).last_addr = 7 :=
  ⟨by decide, ((find_by_addr_search_order [gW] 7).2.2 0 (by decide)).2.1⟩

/-- C1 counterexample: address 1 is the member address of the second
group, yet group_find_by_addr returns the first group via its last_addr
with no connection, because the first group is scanned first.  This
refutes the claim that member matches anywhere in the registry take
priority over last_addr matches of earlier groups. -/
theorem find_by_addr_shadowing :
    memberOf (gsShadow.getD 1 dG) 1 ∧ findByAddr gsShadow 1 = some (0, none) := by
  constructor
  · decide
  · decide

/-- C2: a REG1 from address a is answered REG_ERR with the registry
unchanged when the registry is full or when a already resolves to a
group; otherwise (with the reply sendto succeeding) a group whose id is
the client half followed by the 16 random server bytes, with last_addr =
a, created_at = ts and no connections, is appended, and the reply is REG2
echoing the full id.  The reply is always exactly REG_ERR or REG2. -/
theorem reg1_protocol (s : Bool) (gs : List Group) (a : Addr)
    (ch sh : GroupId) (ts : Int) (hs : s = true) :
    (MAX_GROUPS ≤ gs.length → register_group s gs a ch sh ts = (gs, .regErr)) ∧
    (∀ r, gs.length < MAX_GROUPS → findByAddr gs a = some r →
      register_group s gs a ch sh ts = (gs, .regErr)) ∧
    (gs.length < MAX_GROUPS → findByAddr gs a = none →
      register_group s gs a ch sh ts =
        (gs ++ [{ id := ch ++ sh, conns := [], srt_sock := false,
                  last_addr := a, created_at := ts }], .reg2 (ch ++ sh))) ∧
    ((register_group s gs a ch sh ts).2 = .regErr ∨
      (register_group s gs a ch sh ts).2 = .reg2 (ch ++ sh)) ∧
    (ch.length = SRTLA_ID_LEN / 2 → sh.length = SRTLA_ID_LEN / 2 →
      (ch ++ sh).length = SRTLA_ID_LEN) := by
  subst hs
  refine ⟨fun h => register_group_full true a ch sh ts h,
    fun r hlt hfa => register_group_dup true ch sh ts hlt hfa,
    fun hlt hfa => register_group_ok ch sh ts hlt hfa, ?_,
    fun hc hshl => by simp [hc, hshl, SRTLA_ID_LEN]⟩
  by_cases hfull : MAX_GROUPS ≤ gs.length
  · rw [register_group_full true a ch sh ts hfull]
    exact Or.inl rfl
  · rcases hfa : findByAddr gs a with _ | r
    · rw [register_group_ok ch sh ts (Nat.lt_of_not_le hfull) hfa]
      exact Or.inr rfl
    · rw [register_group_dup true ch sh ts (Nat.lt_of_not_le hfull) hfa]
      exact Or.inl rfl

/-- C2 witness: a successful REG1 on the empty registry. -/
theorem reg1_protocol_witness :
    register_group true [] 9 [1, 2] [3, 4] 5 = ([gReg], .reg2 [1, 2, 3, 4]) :=
  (reg1_protocol true [] 9 [1, 2] [3, 4] 5 rfl).2.2.1 (by decide) (by decide)

/-- C3: a REG2 carrying an id no group holds is answered REG_NGP; a REG2
from an address resolving to a different group than the id names is
answered REG_ERR; a REG2 from a non-member when the group is full is
answered REG_ERR; in each case the registry is unchanged.  Otherwise
(with the REG3 sendto succeeding) the reply is REG3, a fresh connection
with recv_idx = 0 and last_rcvd = ts is appended unless the address is
already a member, and the group's last_addr becomes the address.  The
reply is always exactly REG3, REG_ERR or REG_NGP. -/
theorem reg2_protocol (s : Bool) (gs : List Group) (a : Addr) (id : GroupId)
    (ts : Int) (hs : s = true) :
    (findById gs id = none → conn_reg s gs a id ts = (gs, .regNgp)) ∧
    (∀ gi ti oc, findById gs id = some gi → findByAddr gs a = some (ti, oc) →
      ti ≠ gi → conn_reg s gs a id ts = (gs, .regErr)) ∧
    (∀ gi, findById gs id = some gi →
      (findByAddr gs a = none ∨ findByAddr gs a = some (gi, none)) →
      MAX_CONNS_PER_GROUP ≤ (gs.getD gi dG).conns.length →
      conn_reg s gs a id ts = (gs, .regErr)) ∧
    (∀ gi, findById gs id = some gi →
      (findByAddr gs a = none ∨ findByAddr gs a = some (gi, none)) →
      (gs.getD gi dG).conns.length < MAX_CONNS_PER_GROUP →
      conn_reg s gs a id ts =
        (gs.set gi { gs.getD gi dG with
          conns := (gs.getD gi dG).conns ++ [newConn a ts], last_addr := a },
         .reg3)) ∧
    (∀ gi ci, findById gs id = some gi →
      findByAddr gs a = some (gi, some ci) →
      conn_reg s gs a id ts =
        (gs.set gi { gs.getD gi dG with last_addr := a }, .reg3)) ∧
    ((conn_reg s gs a id ts).2 = .reg3 ∨ (conn_reg s gs a id ts).2 = .regErr ∨
      (conn_reg s gs a id ts).2 = .regNgp) := by
  subst hs
  refine ⟨fun h => conn_reg_ngp true a ts h,
    fun gi ti oc hid hfa hne => conn_reg_mismatch true a ts hid hfa hne,
    fun gi hid hfa hcap => conn_reg_capacity true a ts hid hfa hcap,
    fun gi hid hfa hlt => by rw [conn_reg_newconn true a ts hid hfa hlt]; simp,
    fun gi ci hid hfa => by rw [conn_reg_rereg true a ts hid hfa]; simp, ?_⟩
  rcases hid : findById gs id with _ | gi
  · rw [conn_reg_ngp true a ts hid]
    exact Or.inr (Or.inr rfl)
  · rcases hfa : findByAddr gs a with _ | ⟨ti, oc⟩
    · by_cases hcap : MAX_CONNS_PER_GROUP ≤ (gs.getD gi dG).conns.length
      · rw [conn_reg_capacity true a ts hid (Or.inl hfa) hcap]
        exact Or.inr (Or.inl rfl)
      · rw [conn_reg_newconn true a ts hid (Or.inl hfa) (Nat.lt_of_not_le hcap)]
        simp
    · by_cases hti : ti = gi
      · subst hti
        rcases oc with _ | ci
        · by_cases hcap : MAX_CONNS_PER_GROUP ≤ (gs.getD ti dG).conns.length
          · rw [conn_reg_capacity true a ts hid (Or.inr hfa) hcap]
            exact Or.inr (Or.inl rfl)
          · rw [conn_reg_newconn true a ts hid (Or.inr hfa) (Nat.lt_of_not_le hcap)]
            simp
        · rw [conn_reg_rereg true a ts hid hfa]
          simp
      · rw [conn_reg_mismatch true a ts hid hfa hti]
        exact Or.inr (Or.inl rfl)

/-- C3 witness: a successful REG2 joining the group registered by the C2
witness scenario, from the same address that registered it. -/
theorem reg2_protocol_witness :
    conn_reg true [gReg] 9 [1, 2, 3, 4] 6 =
      ([{ gReg with conns := [newConn 9 6], last_addr := 9 }], .reg3) := by
  have h := (reg2_protocol true [gReg] 9 [1, 2, 3, 4] 6 rfl).2.2.2.1 0
    (by decide) (Or.inr (by decide)) (by decide)
  simpa [gReg] using h

/-- C5: an upstream datagram of length at least SRT_MIN_LEN is broadcast
byte-identically to every member connection's address when it is an SRT
ACK, and sent only to the group's last_addr otherwise; in both cases the
registry is unchanged (send results are only logged). -/
theorem srt_data_relay (gs : List Group) (gi : Nat) (buf : List Nat)
    (hn : SRT_MIN_LEN ≤ buf.length) :
    (is_srt_ack buf = true →
      handle_srt_data gs gi buf =
        (gs, (gs.getD gi dG).conns.map (fun c => (c.addr, buf)))) ∧
    (is_srt_ack buf = false →
      handle_srt_data gs gi buf = (gs, [((gs.getD gi dG).last_addr, buf)])) := by
  unfold handle_srt_data
  dsimp only
  rw [if_neg (Nat.not_lt.mpr hn)]
  constructor <;> intro h <;> simp [h]

/-- C5 witness: an SRT ACK relayed to both members of a two-member
group. -/
theorem srt_data_relay_witness :
    handle_srt_data [gAck] 0 srtAckPkt =
      ([gAck], [(4, srtAckPkt), (5, srtAckPkt)]) := by
  have h := (srt_data_relay [gAck] 0 srtAckPkt (by decide)).1 (by decide)
  simpa [gAck] using h

/-- C6: one cleanup sweep at time ts drops from every group exactly the
connections with last_rcvd + CONN_TIMEOUT < ts, and a swept group remains
in the registry if and only if it still has a connection or its
created_at + GROUP_TIMEOUT is not yet past; in particular a group with a
surviving (live) connection is never evicted. -/
theorem cleanup_spec (ts : Int) (gs : List Group) :
    (∀ g : Group, ∀ c : Conn, c ∈ (cleanupConns ts g).conns ↔
      c ∈ g.conns ∧ ¬(c.last_rcvd + CONN_TIMEOUT < ts)) ∧
    (∀ g' : Group, g' ∈ connection_cleanup ts gs ↔
      ((∃ g ∈ gs, cleanupConns ts g = g') ∧
        ¬(g'.conns = [] ∧ g'.created_at + GROUP_TIMEOUT < ts))) ∧
    (∀ g ∈ gs, (cleanupConns ts g).conns ≠ [] →
      cleanupConns ts g ∈ connection_cleanup ts gs) := by
  have h1 : ∀ g : Group, ∀ c : Conn, c ∈ (cleanupConns ts g).conns ↔
      c ∈ g.conns ∧ ¬(c.last_rcvd + CONN_TIMEOUT < ts) := by
    intro g c
    simp [cleanupConns, List.mem_filter]
  have hq : ∀ g' : Group,
      (!(g'.conns.isEmpty && decide (g'.created_at + GROUP_TIMEOUT < ts))) = true ↔
      ¬(g'.conns = [] ∧ g'.created_at + GROUP_TIMEOUT < ts) := by
    intro g'
    rcases hc : g'.conns with _ | ⟨c, cs⟩ <;>
      by_cases ho : g'.created_at + GROUP_TIMEOUT < ts <;> simp [ho]
  have h2 : ∀ g' : Group, g' ∈ connection_cleanup ts gs ↔
      ((∃ g ∈ gs, cleanupConns ts g = g') ∧
        ¬(g'.conns = [] ∧ g'.created_at + GROUP_TIMEOUT < ts)) := by
    intro g'
    unfold connection_cleanup
    rw [List.mem_filter, List.mem_map, hq g']
  refine ⟨h1, h2, fun g hg hne => ?_⟩
  exact (h2 _).mpr ⟨⟨g, hg, rfl⟩, fun hempty => absurd hempty.1 hne⟩

/-- C6 witness: a group with one live and one stale connection keeps
exactly the live one and stays registered. -/
theorem cleanup_spec_witness :
    cleanupConns 100 gStale ∈ connection_cleanup 100 [gStale] :=
  (cleanup_spec 100 [gStale]).2.2 _ (by decide) (by decide)

/-- C10: when the checked sendto of the REG3 (conn_reg) or REG2
(register_group) reply fails, the registry — groups, connections and
last_addr included — is left exactly as it was. -/
theorem registration_atomic_on_send_failure (gs : List Group) (a : Addr)
    (id ch sh : GroupId) (ts : Int) :
    (conn_reg false gs a id ts).1 = gs ∧
      (register_group false gs a ch sh ts).1 = gs := by
  constructor
  · rcases hid : findById gs id with _ | gi
    · rw [conn_reg_ngp false a ts hid]
    · rcases hfa : findByAddr gs a with _ | ⟨ti, oc⟩
      · by_cases hcap : MAX_CONNS_PER_GROUP ≤ (gs.getD gi dG).conns.length
        · rw [conn_reg_capacity false a ts hid (Or.inl hfa) hcap]
        · rw [conn_reg_newconn false a ts hid (Or.inl hfa) (Nat.lt_of_not_le hcap)]
          simp
      · by_cases hti : ti = gi
        · subst hti
          rcases oc with _ | ci
          · by_cases hcap : MAX_CONNS_PER_GROUP ≤ (gs.getD ti dG).conns.length
            · rw [conn_reg_capacity false a ts hid (Or.inr hfa) hcap]
            · rw [conn_reg_newconn false a ts hid (Or.inr hfa)
                (Nat.lt_of_not_le hcap)]
              simp
          · rw [conn_reg_rereg false a ts hid hfa]
            simp
        · rw [conn_reg_mismatch false a ts hid hfa hti]
  · by_cases hfull : MAX_GROUPS ≤ gs.length
    · rw [register_group_full false a ch sh ts hfull]
    · rcases hfa : findByAddr gs a with _ | r
      · rw [register_group_sendfail ch sh ts (Nat.lt_of_not_le hfull) hfa]
      · rw [register_group_dup false ch sh ts (Nat.lt_of_not_le hfull) hfa]

/-- C7: in every reachable registry state, a peer address is the member
address of at most one group, and within any single group the member
connection addresses are pairwise distinct.  (Proved by showing every
operation preserves the strengthened invariant Inv, which implies this
property.) -/
theorem reachable_member_addr_unique {gs : List Group} (h : Reachable gs) :
    (∀ i j, i < gs.length → j < gs.length → i ≠ j → ∀ a,
      memberOf (gs.getD i dG) a → ¬ memberOf (gs.getD j dG) a) ∧
    ∀ g ∈ gs, (g.conns.map Conn.addr).Nodup := by
  have hinv := reachable_inv h
  exact ⟨fun i j hi hj hij a hmi => (pairwise_pairs hinv.1 hi hj hij).1 a hmi,
    hinv.2⟩

/-- C7 witness: the initial empty registry is reachable and satisfies the
uniqueness property. -/
theorem reachable_member_addr_unique_witness :
    Reachable ([] : List Group) ∧
      ∀ g ∈ ([] : List Group), (g.conns.map Conn.addr).Nodup :=
  ⟨Reachable.init, (reachable_member_addr_unique Reachable.init).2⟩

/-!  Ring-preservation helpers for the data path. -/

theorem touchConn_ring (gs : List Group) (gi ci : Nat) (ts : Int) :
    (((touchConn gs gi ci ts).getD gi dG).conns.getD ci dC).recv_idx =
      ((gs.getD gi dG).conns.getD ci dC).recv_idx ∧
    (((touchConn gs gi ci ts).getD gi dG).conns.getD ci dC).recv_log =
      ((gs.getD gi dG).conns.getD ci dC).recv_log := by
  by_cases hgi : gi < gs.length
  · unfold touchConn
    rw [updateGroup_getD_self _ hgi]
    unfold updateConnIn
    dsimp only
    by_cases hci : ci < (gs.getD gi dG).conns.length
    · rw [getD_set_self _ dC hci]
      exact ⟨rfl, rfl⟩
    · rw [set_oob _ (Nat.le_of_not_lt hci)]
      exact ⟨rfl, rfl⟩
  · unfold touchConn updateGroup
    rw [set_oob _ (Nat.le_of_not_lt hgi)]
    exact ⟨rfl, rfl⟩

theorem touchConn_last_rcvd {gs : List Group} {gi ci : Nat} (ts : Int)
    (hgi : gi < gs.length) (hci : ci < (gs.getD gi dG).conns.length) :
    (((touchConn gs gi ci ts).getD gi dG).conns.getD ci dC).last_rcvd = ts := by
  unfold touchConn
  rw [updateGroup_getD_self _ hgi]
  unfold updateConnIn
  dsimp only
  rw [getD_set_self _ dC hci]

theorem touchConn_last_addr (gs : List Group) (gi ci : Nat) (ts : Int)
    (j : Nat) :
    (((touchConn gs gi ci ts).getD j dG)).last_addr =
      ((gs.getD j dG)).last_addr :=
  updateGroup_preserves Group.last_addr _ (fun _ => rfl)

theorem touchConn_length (gs : List Group) (gi ci : Nat) (ts : Int) :
    (touchConn gs gi ci ts).length = gs.length :=
  updateGroup_length gs gi _

theorem setLastAddr_conns (gs : List Group) (gi : Nat) (src : Addr) (j : Nat) :
    ((setLastAddr gs gi src).getD j dG).conns = ((gs.getD j dG)).conns :=
  updateGroup_preserves Group.conns _ (fun _ => rfl)

theorem setLastAddr_srt_sock (gs : List Group) (gi : Nat) (src : Addr)
    (j : Nat) :
    ((setLastAddr gs gi src).getD j dG).srt_sock = ((gs.getD j dG)).srt_sock :=
  updateGroup_preserves Group.srt_sock _ (fun _ => rfl)

theorem setLastAddr_getD_self {gs : List Group} {gi : Nat} (src : Addr)
    (hgi : gi < gs.length) :
    ((setLastAddr gs gi src).getD gi dG).last_addr = src := by
  unfold setLastAddr
  rw [updateGroup_getD_self _ hgi]

theorem recordPacket_last_addr (gs : List Group) (gi ci sn : Nat) (j : Nat) :
    (((recordPacket gs gi ci sn).1).getD j dG).last_addr =
      ((gs.getD j dG)).last_addr := by
  unfold recordPacket
  dsimp only
  exact updateGroup_preserves Group.last_addr _ (fun _ => rfl)

theorem recordPacket_srt_sock (gs : List Group) (gi ci sn : Nat) (j : Nat) :
    (((recordPacket gs gi ci sn).1).getD j dG).srt_sock =
      ((gs.getD j dG)).srt_sock := by
  unfold recordPacket
  dsimp only
  exact updateGroup_preserves Group.srt_sock _ (fun _ => rfl)

theorem recordPacket_eraseIdx (gs : List Group) (gi ci sn : Nat) :
    ((recordPacket gs gi ci sn).1).eraseIdx gi = gs.eraseIdx gi := by
  unfold recordPacket
  dsimp only
  exact updateGroup_eraseIdx gs gi _

theorem setLastAddr_eraseIdx (gs : List Group) (gi : Nat) (src : Addr) :
    (setLastAddr gs gi src).eraseIdx gi = gs.eraseIdx gi :=
  updateGroup_eraseIdx gs gi _

theorem touchConn_eraseIdx (gs : List Group) (gi ci : Nat) (ts : Int) :
    (touchConn gs gi ci ts).eraseIdx gi = gs.eraseIdx gi :=
  updateGroup_eraseIdx gs gi _

theorem touchConn_srt_sock (gs : List Group) (gi ci : Nat) (ts : Int)
    (j : Nat) :
    ((touchConn gs gi ci ts).getD j dG).srt_sock = ((gs.getD j dG)).srt_sock :=
  updateGroup_preserves Group.srt_sock _ (fun _ => rfl)

/-- C8: a non-registration datagram from an address that is not a member
connection (including one matching only some group's last_addr) is
dropped with no state change; for a member address last_rcvd is set to ts
before the keepalive and length checks, so keepalives (which are echoed)
and short datagrams still refresh last_rcvd while leaving last_addr
unchanged; last_addr becomes src exactly in the non-keepalive,
length-at-least-SRT_MIN_LEN case. -/
theorem nonreg_datagram_handling (o : NetOracle) (sh : GroupId)
    (gs : List Group) (src : Addr) (buf : List Nat) (ts : Int)
    (h1 : is_srtla_reg1 buf = false) (h2 : is_srtla_reg2 buf = false) :
    (findByAddr gs src = none →
      handle_srtla_data o sh gs src buf ts = ⟨gs, [], none⟩) ∧
    (∀ gi, findByAddr gs src = some (gi, none) →
      handle_srtla_data o sh gs src buf ts = ⟨gs, [], none⟩) ∧
    (∀ gi ci, findByAddr gs src = some (gi, some ci) →
      is_srtla_keepalive buf = true →
      handle_srtla_data o sh gs src buf ts =
        ⟨touchConn gs gi ci ts, [(src, buf)], none⟩ ∧
      (((touchConn gs gi ci ts).getD gi dG).conns.getD ci dC).last_rcvd = ts ∧
      ((touchConn gs gi ci ts).getD gi dG).last_addr =
        ((gs.getD gi dG)).last_addr) ∧
    (∀ gi ci, findByAddr gs src = some (gi, some ci) →
      is_srtla_keepalive buf = false → buf.length < SRT_MIN_LEN →
      handle_srtla_data o sh gs src buf ts = ⟨touchConn gs gi ci ts, [], none⟩ ∧
      (((touchConn gs gi ci ts).getD gi dG).conns.getD ci dC).last_rcvd = ts ∧
      ((touchConn gs gi ci ts).getD gi dG).last_addr =
        ((gs.getD gi dG)).last_addr) ∧
    (∀ gi ci, findByAddr gs src = some (gi, some ci) →
      is_srtla_keepalive buf = false → SRT_MIN_LEN ≤ buf.length →
      o.socketOk = true → o.connectOk = true → o.epollOk = true →
      o.upSendOk = true →
      (((handle_srtla_data o sh gs src buf ts).groups.getD gi dG)).last_addr =
        src) := by
  refine ⟨fun hfa => handle_nonreg_nomatch o sh gs src ts h1 h2 hfa,
    fun gi hfa => handle_nonreg_lastaddr o sh gs src ts h1 h2 hfa,
    fun gi ci hfa hk => ?_, fun gi ci hfa hk hn => ?_,
    fun gi ci hfa hk hn ho1 ho2 ho3 ho4 => ?_⟩
  · have hgi := (findByAddr_eq_some_some hfa).1
    have hci := (connFind_eq_some (findByAddr_eq_some_some hfa).2.1).1
    rw [handle_nonreg_member o sh gs src ts h1 h2 hfa,
      dataPath_keepalive o gs gi ci src ts hk]
    exact ⟨rfl, touchConn_last_rcvd ts hgi hci, touchConn_last_addr gs gi ci ts gi⟩
  · have hgi := (findByAddr_eq_some_some hfa).1
    have hci := (connFind_eq_some (findByAddr_eq_some_some hfa).2.1).1
    rw [handle_nonreg_member o sh gs src ts h1 h2 hfa,
      dataPath_short o gs gi ci src ts hk hn]
    exact ⟨rfl, touchConn_last_rcvd ts hgi hci, touchConn_last_addr gs gi ci ts gi⟩
  · have hgi := (findByAddr_eq_some_some hfa).1
    have hgi1 : gi < (touchConn gs gi ci ts).length := by
      rw [touchConn_length]; exact hgi
    have hlast2 : ((setLastAddr (touchConn gs gi ci ts) gi src).getD gi
        dG).last_addr = src := setLastAddr_getD_self src hgi1
    rw [handle_nonreg_member o sh gs src ts h1 h2 hfa,
      dataPath_main o gs gi ci src ts hk hn]
    dsimp only
    by_cases hsn : (0 : Int) ≤ get_srt_sn buf
    · rw [if_pos hsn,
        forwardUpstream_allOk gi _ buf ho1 ho2 ho3 ho4]
      dsimp only
      split
      · rw [updateGroup_preserves Group.last_addr
            (fun g => { g with srt_sock := true }) (fun _ => rfl),
          recordPacket_last_addr]
        exact hlast2
      · rw [recordPacket_last_addr]
        exact hlast2
    · rw [if_neg hsn,
        forwardUpstream_allOk gi _ buf ho1 ho2 ho3 ho4]
      dsimp only
      split
      · rw [updateGroup_preserves Group.last_addr
            (fun g => { g with srt_sock := true }) (fun _ => rfl)]
        exact hlast2
      · exact hlast2

/-- C8 witness: a 1-byte datagram from an address matching only a group's
last_addr is dropped with no state change. -/
theorem nonreg_datagram_handling_witness :
    handle_srtla_data oAll [] [gW] 7 [1] 0 = ⟨[gW], [], none⟩ :=
  (nonreg_datagram_handling oAll [] [gW] 7 [1] 0 (by decide) (by decide)).2.1 0
    (by decide)

/-- C9: when the upstream socket cannot be created, connected or
registered, or the upstream send fails, the handler removes exactly the
matched group; a short read on a group's upstream socket likewise removes
the group; and an erased group is findable neither by id (given distinct
ids) nor by any of its member addresses (given the member-uniqueness
invariant). -/
theorem fatal_upstream_removes_group (o : NetOracle) (sh : GroupId)
    (gs : List Group) (src : Addr) (buf : List Nat) (ts : Int) :
    (∀ gi ci, is_srtla_reg1 buf = false → is_srtla_reg2 buf = false →
      findByAddr gs src = some (gi, some ci) →
      is_srtla_keepalive buf = false → SRT_MIN_LEN ≤ buf.length →
      (((gs.getD gi dG).srt_sock = false ∧
          (o.socketOk = false ∨ o.connectOk = false ∨ o.epollOk = false ∨
            o.upSendOk = false)) ∨
        ((gs.getD gi dG).srt_sock = true ∧ o.upSendOk = false)) →
      (handle_srtla_data o sh gs src buf ts).groups = gs.eraseIdx gi) ∧
    (∀ gi, buf.length < SRT_MIN_LEN →
      handle_srt_data gs gi buf = (gs.eraseIdx gi, [])) ∧
    (∀ gi, gi < gs.length → gs.Pairwise GPair → (gs.map Group.id).Nodup →
      findById (gs.eraseIdx gi) ((gs.getD gi dG).id) = none ∧
      (∀ a, memberOf (gs.getD gi dG) a →
        ∀ p q, findByAddr (gs.eraseIdx gi) a ≠ some (p, some q))) := by
  refine ⟨fun gi ci h1 h2 hfa hk hn hfail => ?_, fun gi hn => ?_,
    fun gi hgi hpw hnd => ⟨?_, ?_⟩⟩
  · rw [handle_nonreg_member o sh gs src ts h1 h2 hfa,
      dataPath_main o gs gi ci src ts hk hn]
    dsimp only
    by_cases hsn : (0 : Int) ≤ get_srt_sn buf
    · rw [if_pos hsn]
      have hss : (((recordPacket (setLastAddr (touchConn gs gi ci ts) gi src)
          gi ci (get_srt_sn buf).toNat).1).getD gi dG).srt_sock =
          ((gs.getD gi dG)).srt_sock := by
        rw [recordPacket_srt_sock, setLastAddr_srt_sock, touchConn_srt_sock]
      rw [forwardUpstream_fail o _ buf (by rw [hss]; exact hfail)]
      rw [recordPacket_eraseIdx, setLastAddr_eraseIdx, touchConn_eraseIdx]
    · rw [if_neg hsn]
      have hss : ((setLastAddr (touchConn gs gi ci ts) gi src).getD gi
          dG).srt_sock = ((gs.getD gi dG)).srt_sock := by
        rw [setLastAddr_srt_sock, touchConn_srt_sock]
      rw [forwardUpstream_fail o _ buf (by rw [hss]; exact hfail)]
      rw [setLastAddr_eraseIdx, touchConn_eraseIdx]
  · unfold handle_srt_data
    dsimp only
    rw [if_pos hn]
  · apply findById_eq_none.mpr
    intro g hg heq
    have hmem : ((gs.getD gi dG)).id ∈ (gs.map Group.id).eraseIdx gi := by
      rw [← map_eraseIdx]
      exact heq ▸ List.mem_map.mpr ⟨g, hg, rfl⟩
    have hnot := nodup_getD_not_mem_eraseIdx (dG.id) hnd
      (by rw [List.length_map]; exact hgi)
    rw [List.getD_map gs dG Group.id] at hnot
    exact hnot hmem
  · intro a hmem p q hfind
    obtain ⟨hp, hcf, _⟩ := findByAddr_eq_some_some hfind
    have hmem' : memberOf ((gs.eraseIdx gi).getD p dG) a := connFind_memberOf hcf
    have hlen : (gs.eraseIdx gi).length = gs.length - 1 := by
      rw [List.length_eraseIdx, if_pos hgi]
    rw [getD_eraseIdx dG] at hmem'
    by_cases hplt : p < gi
    · have hj : p < gs.length := by omega
      rw [if_pos hplt] at hmem'
      exact (pairwise_pairs hpw hgi hj (by omega)).1 a hmem hmem'
    · have hj : p + 1 < gs.length := by omega
      rw [if_neg hplt] at hmem'
      exact (pairwise_pairs hpw hgi hj (by omega)).1 a hmem hmem'

/-- C9 witness: an upstream send failure on a data packet from a member
removes the (single) group. -/
theorem fatal_upstream_removes_group_witness :
    (handle_srtla_data oSendFail [] [gAck] 4 dataPkt 0).groups =
      List.eraseIdx [gAck] 0 :=
  (fatal_upstream_removes_group oSendFail [] [gAck] 4 dataPkt 0).1 0 0
    (by decide) (by decide) (by decide) (by decide) (by decide)
    (Or.inr ⟨by decide, by decide⟩)

/-- C4: starting from recv_idx = 0, ten data-packet sequence numbers
produce exactly one ACK, emitted on the tenth: a 44-byte datagram whose
first four bytes are 0x91 0x00 0x00 0x00 and whose remaining 40 bytes are
the ten sequence numbers big-endian in arrival order, after which
recv_idx is 0 again; fewer than ten produce none.  Keepalives and SRT
control packets (get_srt_sn = -1) leave the ring (recv_idx and recv_log)
untouched. -/
theorem ack_every_tenth (c : Conn) (sns : List Nat)
    (hidx : c.recv_idx = 0) (hlog : c.recv_log.length = RECV_ACK_INT) :
    (sns.length = RECV_ACK_INT →
      feedData c sns =
        ({ c with recv_log := sns, recv_idx := 0 },
         [[0x91, 0x00, 0x00, 0x00] ++ encodeLog sns]) ∧
      ([0x91, 0x00, 0x00, 0x00] ++ encodeLog sns).length = 44) ∧
    (sns.length < RECV_ACK_INT →
      (feedData c sns).2 = [] ∧ (feedData c sns).1.recv_idx = sns.length) ∧
    (∀ o : NetOracle, ∀ sh : GroupId, ∀ gs : List Group, ∀ src : Addr,
      ∀ buf : List Nat, ∀ ts : Int, ∀ gi ci : Nat,
      is_srtla_reg1 buf = false → is_srtla_reg2 buf = false →
      findByAddr gs src = some (gi, some ci) →
      is_srtla_keepalive buf = true →
      ((((handle_srtla_data o sh gs src buf ts).groups.getD gi
          dG).conns.getD ci dC).recv_idx =
        ((gs.getD gi dG).conns.getD ci dC).recv_idx ∧
       (((handle_srtla_data o sh gs src buf ts).groups.getD gi
          dG).conns.getD ci dC).recv_log =
        ((gs.getD gi dG).conns.getD ci dC).recv_log)) ∧
    (∀ r : Bool, ∀ sh : GroupId, ∀ gs : List Group, ∀ src : Addr,
      ∀ buf : List Nat, ∀ ts : Int, ∀ gi ci : Nat,
      is_srtla_reg1 buf = false → is_srtla_reg2 buf = false →
      findByAddr gs src = some (gi, some ci) →
      is_srtla_keepalive buf = false → SRT_MIN_LEN ≤ buf.length →
      get_srt_sn buf = -1 →
      ((((handle_srtla_data ⟨r, true, true, true, true⟩ sh gs src buf
          ts).groups.getD gi dG).conns.getD ci dC).recv_idx =
        ((gs.getD gi dG).conns.getD ci dC).recv_idx ∧
       (((handle_srtla_data ⟨r, true, true, true, true⟩ sh gs src buf
          ts).groups.getD gi dG).conns.getD ci dC).recv_log =
        ((gs.getD gi dG).conns.getD ci dC).recv_log)) := by
  refine ⟨fun hlen => ?_, fun hlt => ?_,
    fun o sh gs src buf ts gi ci h1 h2 hfa hk => ?_,
    fun r sh gs src buf ts gi ci h1 h2 hfa hk hn hsn => ?_⟩
  · have hne : sns ≠ [] := by
      intro hnil
      rw [hnil] at hlen
      simp [RECV_ACK_INT] at hlen
    have hfill := feed_fill sns c hne hlog (by omega)
    rw [hidx] at hfill
    simp only [List.take_zero, List.nil_append] at hfill
    refine ⟨hfill, ?_⟩
    simp [encodeLog_length, hlen, RECV_ACK_INT]
  · have h := feed_partial sns c (by omega)
    rw [hidx] at h
    simpa using h
  · rw [handle_nonreg_member o sh gs src ts h1 h2 hfa,
      dataPath_keepalive o gs gi ci src ts hk]
    exact touchConn_ring gs gi ci ts
  · rw [handle_nonreg_member ⟨r, true, true, true, true⟩ sh gs src ts h1 h2 hfa,
      dataPath_main ⟨r, true, true, true, true⟩ gs gi ci src ts hk hn]
    dsimp only
    rw [hsn, if_neg (by decide : ¬((0 : Int) ≤ -1)),
      forwardUpstream_allOk gi _ buf rfl rfl rfl rfl]
    dsimp only
    split
    · rw [updateGroup_preserves Group.conns
        (fun g => { g with srt_sock := true }) (fun _ => rfl),
        setLastAddr_conns]
      exact touchConn_ring gs gi ci ts
    · rw [setLastAddr_conns]
      exact touchConn_ring gs gi ci ts

/-- C4 witness: ten sequence numbers on a fresh connection produce the
44-byte ACK carrying them in order. -/
theorem ack_every_tenth_witness :
    (feedData cFeed [1, 2, 3, 4, 5, 6, 7, 8, 9, 10] =
      ({ cFeed with recv_log := [1, 2, 3, 4, 5, 6, 7, 8, 9, 10], recv_idx := 0 },
       [[0x91, 0x00, 0x00, 0x00] ++ encodeLog [1, 2, 3, 4, 5, 6, 7, 8, 9, 10]])) ∧
    ([0x91, 0x00, 0x00, 0x00] ++
      encodeLog [1, 2, 3, 4, 5, 6, 7, 8, 9, 10]).length = 44 :=
  (ack_every_tenth cFeed [1, 2, 3, 4, 5, 6, 7, 8, 9, 10] rfl (by decide)).1
    (by decide)

end Srtla
